import Mathlib

/-!
Verification of the battleship contract (`src/lib.rs`, `src/zk_compute.rs`).

The contract is a two-player hidden-information duel on the Partisia
blockchain.  Each player stores one concealed 32-bit placement value with
the MPC engine; a shot starts a secure comparison over the opponent's
concealed value; the single boolean result is disclosed and folded into the
public state (hit slots, winner, turn, phase).

Shallow embedding conventions:
* `Address` and `SecretVarId` are `Nat` (opaque identities with equality).
* Machine integers (`u32`, `Sbi32`) are `Nat` resp. `Int`; no arithmetic
  that could overflow occurs in the source.
* Rust `assert!`/`panic!` aborts are modelled as `Except` errors carrying
  the error taxonomy names of the specification; an error means the whole
  handler aborts with no state change.
* Byte buffers are `List Nat`.
-/

/-- Secret variable metadata: `player = false` tags player A, `true` player B
(mirrors `SecretVarMetadata` in `src/lib.rs`). -/
structure SecretVarMetadata where
  player : Bool
deriving DecidableEq

/-- Participant identity (`pbc_contract_common::address::Address`), opaque
with decidable equality. -/
abbrev Address := Nat

/-- Identifier of a secret variable held by the engine. -/
abbrev SecretVarId := Nat

/-- Calculation status of the external MPC engine, as observed by the
contract (`pbc_contract_common::zk::CalculationStatus`).  The contract only
distinguishes `Waiting` from everything else. -/
inductive CalculationStatus where
  | Waiting
  | Calculating
  | Output
deriving DecidableEq

/-- A stored secret variable as visible to the contract: id, cleartext
metadata, and (once opened) its plaintext bytes
(`pbc_contract_common::zk::ZkClosed`). -/
structure ZkClosed where
  id : SecretVarId
  metadata : SecretVarMetadata
  data : Option (List Nat)
deriving DecidableEq

/-- The engine state visible to the contract (`ZkState`). -/
structure ZkState where
  calculation_state : CalculationStatus
  secret_variables : List ZkClosed
deriving DecidableEq

/-- `ZkState::get_variable`: look a variable up by id. -/
def ZkState.get_variable (zk : ZkState) (vid : SecretVarId) : Option ZkClosed :=
  zk.secret_variables.find? (fun v => v.id == vid)

/-- State changes a handler may request from the engine
(`pbc_contract_common::zk::ZkStateChange`).  `startComputation` carries the
output-variable metadata list and the two plaintext inputs
`[target_player_flag, position]` of
`ZkStateChange::start_computation_with_inputs`. -/
inductive ZkStateChange where
  | startComputation (output_variable_metadata : List SecretVarMetadata)
      (target_player : Bool) (position : Nat)
  | openVariables (variable_ids : List SecretVarId)
  | outputComplete (variables_to_delete : List SecretVarId)
deriving DecidableEq

/-- The public duel record (`ContractState` in `src/lib.rs`).  The phase is
kept as the exact strings the source uses: "Setup", "Playing", "ENDED". -/
structure ContractState where
  player_a : Address
  player_b : Address
  next_turn : Address
  winner : Option Address
  hit_a : Option Bool
  hit_b : Option Bool
  game_state : String
deriving DecidableEq

/-- Errors of the shot action, named after the specification's taxonomy.
In the source each is a Rust `assert!`/`panic!` abort. -/
inductive ShootError where
  | NotYourTurn
  | GameNotPlayable
  | ComputationBusy
  | UnauthorizedCaller
deriving DecidableEq

/-- Errors of the disclosure handler.  `MalformedDisclosure` is the
`opened_variables.len() == 1` assertion; `MissingVariableData` models the
`unwrap`/`copy_from_slice` panics when the engine hands over a malformed
record. -/
inductive OpenError where
  | MalformedDisclosure
  | MissingVariableData
deriving DecidableEq

/-- `initialize` in `src/lib.rs` (renamed): the fresh duel record. -/
def init_game (player_a player_b : Address) : ContractState :=
  { player_a := player_a
    player_b := player_b
    next_turn := player_a
    winner := none
    hit_a := none
    hit_b := none
    game_state := "Setup" }

/-- `get_player_id` in `src/lib.rs`: caller to binary player id; the source
panics for a non-player, modelled as `none`. -/
def get_player_id (sender : Address) (state : ContractState) : Option Bool :=
  if sender = state.player_a then some false
  else if sender = state.player_b then some true
  else none

/-- `get_player_address` in `src/lib.rs`: binary player id back to address. -/
def get_player_address (id : Bool) (state : ContractState) : Address :=
  if id then state.player_b else state.player_a

/-- `setup_board` in `src/lib.rs`: a placement submission tags the new
secret variable with the sender's player id; a non-player submission
panics (`none`).  The source imposes no further guard: any registered
player may submit, any number of times, in any phase. -/
def setup_board (sender : Address) (state : ContractState) : Option SecretVarMetadata :=
  match get_player_id sender state with
  | some player_id => some { player := player_id }
  | none => none

/-- `shoot` in `src/lib.rs`: the guarded shot action.  Guard order matches
the source's three `assert_eq!` lines: turn, then phase, then engine
status.  On success the unchanged state is returned together with the
single `start_computation_with_inputs` request whose output metadata and
plaintext inputs both name the opponent `!player_id`. -/
def shoot (sender : Address) (state : ContractState)
    (calculation_state : CalculationStatus) (position : Nat) :
    Except ShootError (ContractState × List ZkStateChange) :=
  if sender = state.next_turn then
    if state.game_state = "Playing" then
      if calculation_state = CalculationStatus.Waiting then
        match get_player_id sender state with
        | some player_id =>
            Except.ok (state,
              [ZkStateChange.startComputation [{ player := !player_id }]
                (!player_id) position])
        | none => Except.error ShootError.UnauthorizedCaller
      else Except.error ShootError.ComputationBusy
    else Except.error ShootError.GameNotPlayable
  else Except.error ShootError.NotYourTurn

/-- `auction_compute_complete` in `src/lib.rs`: on computation completion,
unconditionally request that all output variables be opened. -/
def auction_compute_complete (state : ContractState)
    (output_variables : List SecretVarId) :
    ContractState × List ZkStateChange :=
  (state, [ZkStateChange.openVariables output_variables])

/-- `u32::from_le_bytes` on an exactly-4-byte buffer. -/
def u32_from_le_bytes : List Nat → Nat
  | [b0, b1, b2, b3] => b0 + 256 * b1 + 65536 * b2 + 16777216 * b3
  | _ => 0

/-- `read_variable_u32_le` in `src/lib.rs`: unwrap the id, look the
variable up, unwrap its data, and decode exactly 4 bytes little-endian.
Each `unwrap`/`copy_from_slice` panic of the source is `none` here. -/
def read_variable_u32_le (zk_state : ZkState)
    (sum_variable_id : Option SecretVarId) : Option Nat :=
  match sum_variable_id with
  | none => none
  | some vid =>
    match zk_state.get_variable vid with
    | none => none
    | some v =>
      match v.data with
      | none => none
      | some bs => if bs.length = 4 then some (u32_from_le_bytes bs) else none

/-- `calculate_winner` in `src/lib.rs`.  The source `unwrap`s both hit
slots; it is only ever called when both are `Some`, so the fallback arm
(source: panic) is unreachable at the call site. -/
def calculate_winner (state : ContractState) : Option Address :=
  match state.hit_a, state.hit_b with
  | some hit_a, some hit_b =>
    if hit_a && hit_b then none
    else if hit_a then some state.player_b
    else if hit_b then some state.player_a
    else none
  | _, _ => none

/-- `open_auction_variable` in `src/lib.rs`: the disclosure handler.
Asserts exactly one variable was opened, decodes its value, attributes the
hit via the variable's metadata, possibly ends the game and computes the
winner, hands the turn to the player who was shot at, and signals
`OutputComplete` with an empty deletion list. -/
def open_auction_variable (state : ContractState) (zk_state : ZkState)
    (opened_variables : List SecretVarId) :
    Except OpenError (ContractState × List ZkStateChange) :=
  match opened_variables with
  | [vid] =>
    match read_variable_u32_le zk_state (some vid), zk_state.get_variable vid with
    | some was_ship, some x =>
      let shot_at := get_player_address x.metadata.player state
      let state1 :=
        if shot_at = state.player_a then { state with hit_a := some (was_ship != 0) }
        else { state with hit_b := some (was_ship != 0) }
      let state2 :=
        if state1.hit_a.isSome && state1.hit_b.isSome then
          { state1 with game_state := "ENDED", winner := calculate_winner state1 }
        else state1
      Except.ok ({ state2 with next_turn := shot_at },
        [ZkStateChange.outputComplete []])
    | _, _ => Except.error OpenError.MissingVariableData
  | _ => Except.error OpenError.MalformedDisclosure

/-- `inputted_variable` in `src/lib.rs`: after a placement is accepted the
phase flips to "Playing" exactly when the stored-variable count is 2. -/
def inputted_variable (state : ContractState) (zk_state : ZkState) : ContractState :=
  if zk_state.secret_variables.length = 2 then { state with game_state := "Playing" }
  else state

/-- Scanning loop of `zk_compute` (`src/zk_compute.rs`): return the
equality test against the first variable whose metadata equals `target`,
else keep scanning; `0` if none matches.  Secret values are the `Sbi32`
payloads, modelled as `Int` paired with the `bool` metadata. -/
def zk_compute_scan (target : Bool) (guess : Int) : List (Bool × Int) → Int
  | [] => 0
  | v :: rest =>
    if v.1 = target then (if v.2 = guess then 1 else 0)
    else zk_compute_scan target guess rest

/-- `zk_compute` in `src/zk_compute.rs`: derive the guess (`1` if
`position != 0`, else `0`) and scan the stored variables. -/
def zk_compute (target : Bool) (position : Nat) (vars : List (Bool × Int)) : Int :=
  zk_compute_scan target (if position ≠ 0 then 1 else 0) vars

/-! ### Lemmas about the comparison routine -/

/-- Scanning skips a prefix that carries no variable tagged `target`. -/
lemma zk_compute_scan_append (target : Bool) (guess : Int)
    (l1 l2 : List (Bool × Int)) (h1 : ∀ p ∈ l1, p.1 ≠ target) :
    zk_compute_scan target guess (l1 ++ l2) = zk_compute_scan target guess l2 := by
  induction l1 with
  | nil => rfl
  | cons p t ih =>
    have hp : p.1 ≠ target := h1 p (List.mem_cons_self p t)
    simp only [List.cons_append, zk_compute_scan, if_neg hp]
    exact ih fun q hq => h1 q (List.mem_cons_of_mem p hq)

/-- C1: for every target flag and 32-bit position, `zk_compute` derives the
guess `1` if `position ≠ 0` else `0`, and returns `1` exactly when the
stored variable tagged `target` (unique: nothing before it is so tagged)
holds the derived guess, and `0` exactly when it holds any other value. -/
theorem c1_zk_compute_equality (target : Bool) (position : Nat)
    (l1 l2 : List (Bool × Int)) (v : Int)
    (h1 : ∀ p ∈ l1, p.1 ≠ target) :
    (zk_compute target position (l1 ++ (target, v) :: l2) = 1 ↔
      v = (if position ≠ 0 then (1 : Int) else 0)) ∧
    (zk_compute target position (l1 ++ (target, v) :: l2) = 0 ↔
      v ≠ (if position ≠ 0 then (1 : Int) else 0)) := by
  have hs : zk_compute target position (l1 ++ (target, v) :: l2) =
      (if v = (if position ≠ 0 then (1 : Int) else 0) then 1 else 0) := by
    unfold zk_compute
    rw [zk_compute_scan_append target _ l1 _ h1]
    simp [zk_compute_scan]
  constructor
  · rw [hs]; by_cases hv : v = (if position ≠ 0 then (1 : Int) else 0) <;> simp [hv]
  · rw [hs]; by_cases hv : v = (if position ≠ 0 then (1 : Int) else 0) <;> simp [hv]

theorem c1_zk_compute_equality_witness :
    (zk_compute true 3 [(false, 5), (true, 1)] = 1 ↔
      (1 : Int) = (if (3 : Nat) ≠ 0 then (1 : Int) else 0)) ∧
    (zk_compute true 3 [(false, 5), (true, 1)] = 0 ↔
      (1 : Int) ≠ (if (3 : Nat) ≠ 0 then (1 : Int) else 0)) :=
  c1_zk_compute_equality true 3 [(false, 5)] [] 1 (by decide)

/-- C10: if no stored variable carries metadata equal to the target flag,
`zk_compute` falls through the scan and returns `0` (a miss) rather than
failing. -/
theorem c10_zk_compute_no_match (target : Bool) (position : Nat)
    (vars : List (Bool × Int)) (h : ∀ p ∈ vars, p.1 ≠ target) :
    zk_compute target position vars = 0 := by
  unfold zk_compute
  induction vars with
  | nil => rfl
  | cons p t ih =>
    have hp : p.1 ≠ target := h p (List.mem_cons_self p t)
    simp only [zk_compute_scan, if_neg hp]
    exact ih fun q hq => h q (List.mem_cons_of_mem p hq)

theorem c10_zk_compute_no_match_witness :
    zk_compute true 5 [(false, 3), (false, 0)] = 0 :=
  c10_zk_compute_no_match true 5 [(false, 3), (false, 0)] (by decide)

/-! ### Lemmas about the shot action -/

/-- C3: a shot is rejected (fatal abort, no state change) unless the caller
equals `next_turn` (else `NotYourTurn`), the phase is "Playing" (else
`GameNotPlayable`), and the engine status is `Waiting` (else
`ComputationBusy`); when all three guards hold, exactly one secure
computation request is issued (and the caller resolves to a player id, by
the data-model invariant that `next_turn` is one of the two players). -/
theorem c3_shoot_guards (sender : Address) (state : ContractState)
    (cst : CalculationStatus) (position : Nat)
    (hp : state.next_turn = state.player_a ∨ state.next_turn = state.player_b) :
    (sender ≠ state.next_turn →
      shoot sender state cst position = Except.error ShootError.NotYourTurn) ∧
    (sender = state.next_turn → state.game_state ≠ "Playing" →
      shoot sender state cst position = Except.error ShootError.GameNotPlayable) ∧
    (sender = state.next_turn → state.game_state = "Playing" →
      cst ≠ CalculationStatus.Waiting →
      shoot sender state cst position = Except.error ShootError.ComputationBusy) ∧
    (sender = state.next_turn → state.game_state = "Playing" →
      cst = CalculationStatus.Waiting →
      ∀ pid, get_player_id sender state = some pid →
        shoot sender state cst position = Except.ok (state,
          [ZkStateChange.startComputation [{ player := !pid }] (!pid) position])) ∧
    (sender = state.next_turn → state.game_state = "Playing" →
      cst = CalculationStatus.Waiting →
      (get_player_id sender state).isSome = true) := by
  refine ⟨?_, ?_, ?_, ?_, ?_⟩
  · intro h; simp [shoot, h]
  · intro h1 h2; simp [shoot, h1, h2]
  · intro h1 h2 h3; simp [shoot, h1, h2, h3]
  · intro h1 h2 h3 pid hpid; subst h1; simp [shoot, h2, h3, hpid]
  · intro h1 h2 h3
    subst h1
    rcases hp with h | h <;>
      by_cases ha : state.next_turn = state.player_a <;>
      simp [get_player_id, ha, h] <;>
      split <;> rfl

theorem c3_shoot_guards_witness :
    shoot 0 ⟨0, 1, 0, none, none, none, "Playing"⟩ CalculationStatus.Waiting 7 =
      Except.ok (⟨0, 1, 0, none, none, none, "Playing"⟩,
        [ZkStateChange.startComputation [{ player := true }] true 7]) :=
  (c3_shoot_guards 0 ⟨0, 1, 0, none, none, none, "Playing"⟩
    CalculationStatus.Waiting 7 (Or.inl rfl)).2.2.2.1 rfl rfl rfl false rfl

/-- C6: an accepted shot by shooter `pid` issues exactly one computation
request whose single output-metadata record carries the opponent flag
`!pid`, and whose plaintext inputs are exactly the pair
`(!pid, position)`. -/
theorem c6_shoot_targets_opponent (sender : Address) (state : ContractState)
    (cst : CalculationStatus) (position : Nat) (pid : Bool)
    (hpid : get_player_id sender state = some pid)
    (h1 : sender = state.next_turn) (h2 : state.game_state = "Playing")
    (h3 : cst = CalculationStatus.Waiting) :
    shoot sender state cst position = Except.ok (state,
      [ZkStateChange.startComputation [{ player := !pid }] (!pid) position]) := by
  subst h1; simp [shoot, h2, h3, hpid]

theorem c6_shoot_targets_opponent_witness :
    shoot 1 ⟨0, 1, 1, none, none, some true, "Playing"⟩ CalculationStatus.Waiting 0 =
      Except.ok (⟨0, 1, 1, none, none, some true, "Playing"⟩,
        [ZkStateChange.startComputation [{ player := false }] false 0]) :=
  c6_shoot_targets_opponent 1 ⟨0, 1, 1, none, none, some true, "Playing"⟩
    CalculationStatus.Waiting 0 true rfl rfl rfl rfl

/-! ### Lemmas about the disclosure handler -/

/-- The state produced by a successful run of `open_auction_variable`:
record the hit for the player named by the opened variable's metadata,
end the game and compute the winner once both slots are set, and hand the
turn to the player who was shot at. -/
def openResult (state : ContractState) (x : ZkClosed) (was_ship : Nat) : ContractState :=
  let shot_at := get_player_address x.metadata.player state
  let state1 :=
    if shot_at = state.player_a then { state with hit_a := some (was_ship != 0) }
    else { state with hit_b := some (was_ship != 0) }
  let state2 :=
    if state1.hit_a.isSome && state1.hit_b.isSome then
      { state1 with game_state := "ENDED", winner := calculate_winner state1 }
    else state1
  { state2 with next_turn := shot_at }

/-- Successful disclosure computes `openResult` and signals completion with
an empty deletion list. -/
lemma open_auction_variable_eq (state : ContractState) (zk : ZkState)
    (vid : SecretVarId) (x : ZkClosed) (w : Nat)
    (hx : zk.get_variable vid = some x)
    (hw : read_variable_u32_le zk (some vid) = some w) :
    open_auction_variable state zk [vid] =
      Except.ok (openResult state x w, [ZkStateChange.outputComplete []]) := by
  simp only [open_auction_variable, hw, hx, openResult]

/-- Inversion: a successful disclosure determines the opened id, its stored
record and decoded value, the produced state and the requested change. -/
lemma open_ok_inv (state : ContractState) (zk : ZkState)
    (ids : List SecretVarId) (cs2 : ContractState) (chs : List ZkStateChange)
    (h : open_auction_variable state zk ids = Except.ok (cs2, chs)) :
    ∃ vid x w, ids = [vid] ∧ zk.get_variable vid = some x ∧
      read_variable_u32_le zk (some vid) = some w ∧
      cs2 = openResult state x w ∧ chs = [ZkStateChange.outputComplete []] := by
  match ids with
  | [] => simp [open_auction_variable] at h
  | v1 :: v2 :: t => simp [open_auction_variable] at h
  | [vid] =>
    rcases hw : read_variable_u32_le zk (some vid) with _ | w
    · simp [open_auction_variable, hw] at h
    rcases hx : zk.get_variable vid with _ | x
    · simp [open_auction_variable, hw, hx] at h
    · rw [open_auction_variable_eq state zk vid x w hx hw] at h
      simp only [Except.ok.injEq, Prod.mk.injEq] at h
      exact ⟨vid, x, w, rfl, hx, hw, h.1.symm, h.2.symm⟩

lemma openResult_next_turn (state : ContractState) (x : ZkClosed) (w : Nat) :
    (openResult state x w).next_turn = get_player_address x.metadata.player state := rfl

lemma openResult_players (state : ContractState) (x : ZkClosed) (w : Nat) :
    (openResult state x w).player_a = state.player_a ∧
    (openResult state x w).player_b = state.player_b := by
  unfold openResult
  constructor <;> dsimp only <;> split <;> split <;> rfl

lemma openResult_hit_a_of_target_a (state : ContractState) (x : ZkClosed) (w : Nat)
    (h : get_player_address x.metadata.player state = state.player_a) :
    (openResult state x w).hit_a = some (w != 0) ∧
    (openResult state x w).hit_b = state.hit_b := by
  unfold openResult
  constructor <;> dsimp only <;> rw [if_pos h] <;> split <;> rfl

lemma openResult_hit_b_of_target_b (state : ContractState) (x : ZkClosed) (w : Nat)
    (h : ¬ get_player_address x.metadata.player state = state.player_a) :
    (openResult state x w).hit_b = some (w != 0) ∧
    (openResult state x w).hit_a = state.hit_a := by
  unfold openResult
  constructor <;> dsimp only <;> rw [if_neg h] <;> split <;> rfl

/-- The game ends (and the winner is stored) exactly when both hit slots
are set after recording; otherwise phase and winner are untouched. -/
lemma openResult_end (state : ContractState) (x : ZkClosed) (w : Nat) :
    ((openResult state x w).hit_a.isSome ∧ (openResult state x w).hit_b.isSome →
      (openResult state x w).game_state = "ENDED" ∧
      (openResult state x w).winner =
        calculate_winner { state with
          hit_a := (openResult state x w).hit_a,
          hit_b := (openResult state x w).hit_b }) ∧
    (¬ ((openResult state x w).hit_a.isSome ∧ (openResult state x w).hit_b.isSome) →
      (openResult state x w).game_state = state.game_state ∧
      (openResult state x w).winner = state.winner) := by
  simp only [openResult]
  by_cases h1 : get_player_address x.metadata.player state = state.player_a
  · rw [if_pos h1]
    split <;> rename_i hc <;> refine ⟨fun hh => ?_, fun hh => ?_⟩ <;> simp_all
  · rw [if_neg h1]
    split <;> rename_i hc <;> refine ⟨fun hh => ?_, fun hh => ?_⟩ <;> simp_all

/-- `calculate_winner` only reads the hit slots and the two player
addresses. -/
lemma calculate_winner_congr (s t : ContractState) (h1 : s.hit_a = t.hit_a)
    (h2 : s.hit_b = t.hit_b) (h3 : s.player_a = t.player_a)
    (h4 : s.player_b = t.player_b) : calculate_winner s = calculate_winner t := by
  unfold calculate_winner
  rw [h1, h2, h3, h4]

/-- A successful single-variable disclosure always sets the targeted slot
to the freshly decoded result — overwriting whatever the slot held. -/
lemma open_single_sets_slot (state : ContractState) (zk : ZkState)
    (vid : SecretVarId) (x : ZkClosed) (w : Nat)
    (hx : zk.get_variable vid = some x)
    (hw : read_variable_u32_le zk (some vid) = some w) :
    ∃ cs2, open_auction_variable state zk [vid] =
        Except.ok (cs2, [ZkStateChange.outputComplete []]) ∧
      (if get_player_address x.metadata.player state = state.player_a
        then cs2.hit_a = some (w != 0) else cs2.hit_b = some (w != 0)) := by
  refine ⟨openResult state x w, open_auction_variable_eq state zk vid x w hx hw, ?_⟩
  by_cases h1 : get_player_address x.metadata.player state = state.player_a
  · rw [if_pos h1]; exact (openResult_hit_a_of_target_a state x w h1).1
  · rw [if_neg h1]; exact (openResult_hit_b_of_target_b state x w h1).1

/-- C2: when both hit slots are set, the winner is `Some(player_b)` iff
only A's board was hit, `Some(player_a)` iff only B's board was hit, and
`None` when both or neither was hit; and the disclosure handler stores a
winner exactly when it finds both hit slots set after recording. -/
theorem c2_winner_consistency (state st : ContractState) (a b : Bool)
    (ha : state.hit_a = some a) (hb : state.hit_b = some b)
    (hne : state.player_a ≠ state.player_b) :
    (calculate_winner state = some state.player_b ↔ (a = true ∧ b = false)) ∧
    (calculate_winner state = some state.player_a ↔ (b = true ∧ a = false)) ∧
    (a = b → calculate_winner state = none) ∧
    (∀ zk ids cs2 chs, open_auction_variable st zk ids = Except.ok (cs2, chs) →
      (cs2.hit_a.isSome ∧ cs2.hit_b.isSome →
        cs2.game_state = "ENDED" ∧ cs2.winner = calculate_winner cs2) ∧
      (¬ (cs2.hit_a.isSome ∧ cs2.hit_b.isSome) →
        cs2.winner = st.winner ∧ cs2.game_state = st.game_state)) := by
  refine ⟨?_, ?_, ?_, ?_⟩
  · cases a <;> cases b <;> simp [calculate_winner, ha, hb, hne, Ne.symm hne]
  · cases a <;> cases b <;> simp [calculate_winner, ha, hb, hne, Ne.symm hne]
  · intro hab; cases a <;> cases b <;> simp_all [calculate_winner]
  · intro zk ids cs2 chs h
    obtain ⟨vid, x, w, -, hx, hw, rfl, -⟩ := open_ok_inv st zk ids cs2 chs h
    have hend := openResult_end st x w
    constructor
    · intro hh
      obtain ⟨hgs, hwin⟩ := hend.1 hh
      refine ⟨hgs, ?_⟩
      rw [hwin]
      exact calculate_winner_congr _ _ rfl rfl
        (openResult_players st x w).1.symm (openResult_players st x w).2.symm
    · intro hh
      exact ⟨(hend.2 hh).2, (hend.2 hh).1⟩

theorem c2_winner_consistency_witness :
    calculate_winner ⟨0, 1, 0, none, some true, some false, "ENDED"⟩ = some 1 :=
  (c2_winner_consistency ⟨0, 1, 0, none, some true, some false, "ENDED"⟩
    (init_game 0 1) true false rfl rfl (by decide)).1.mpr ⟨rfl, rfl⟩

/-- C4: after any successful disclosure the turn passes to the player who
was just targeted — the one named by the opened variable's metadata, whose
hit slot was recorded — unconditionally, so in particular also on the
terminal shot that has just set the phase to "ENDED". -/
theorem c4_next_turn_is_target (state : ContractState) (zk : ZkState)
    (vid : SecretVarId) (x : ZkClosed) (cs2 : ContractState)
    (chs : List ZkStateChange)
    (hx : zk.get_variable vid = some x)
    (h : open_auction_variable state zk [vid] = Except.ok (cs2, chs)) :
    cs2.next_turn = get_player_address x.metadata.player state := by
  obtain ⟨vid2, x2, w, hids, hx2, hw, rfl, -⟩ := open_ok_inv state zk [vid] cs2 chs h
  have hv : vid2 = vid := by
    have := hids
    injection this with h1 h2
    exact h1.symm
  subst hv
  rw [hx] at hx2
  injection hx2 with hxx
  subst hxx
  exact openResult_next_turn state x w

theorem c4_next_turn_is_target_witness :
    (⟨0, 1, 0, some 0, some false, some true, "ENDED"⟩ : ContractState).next_turn =
      get_player_address false ⟨0, 1, 1, none, none, some true, "Playing"⟩ :=
  c4_next_turn_is_target ⟨0, 1, 1, none, none, some true, "Playing"⟩
    ⟨CalculationStatus.Output, [⟨3, ⟨false⟩, some [0, 0, 0, 0]⟩]⟩ 3
    ⟨3, ⟨false⟩, some [0, 0, 0, 0]⟩
    ⟨0, 1, 0, some 0, some false, some true, "ENDED"⟩
    [ZkStateChange.outputComplete []] rfl rfl

/-- C5 counterexample: the disclosure handler has no `DuplicateResult`
check.  Here player B's slot already holds `some false`, yet recording a
new result for B succeeds and overwrites the slot with `some true`. -/
theorem c5_counterexample :
    (⟨0, 1, 0, none, none, some false, "Playing"⟩ : ContractState).hit_b = some false ∧
    open_auction_variable ⟨0, 1, 0, none, none, some false, "Playing"⟩
      ⟨CalculationStatus.Output, [⟨2, ⟨true⟩, some [1, 0, 0, 0]⟩]⟩ [2] =
      Except.ok (⟨0, 1, 1, none, none, some true, "Playing"⟩,
        [ZkStateChange.outputComplete []]) :=
  ⟨rfl, rfl⟩

/-- C5 amended: recording a disclosure result never fails on an occupied
slot — the handler unconditionally overwrites the targeted player's hit
slot with the freshly decoded result and succeeds. -/
theorem c5_overwrites_slot (state : ContractState) (zk : ZkState)
    (vid : SecretVarId) (x : ZkClosed) (w : Nat)
    (hx : zk.get_variable vid = some x)
    (hw : read_variable_u32_le zk (some vid) = some w) :
    ∃ cs2, open_auction_variable state zk [vid] =
        Except.ok (cs2, [ZkStateChange.outputComplete []]) ∧
      (if get_player_address x.metadata.player state = state.player_a
        then cs2.hit_a = some (w != 0) else cs2.hit_b = some (w != 0)) :=
  open_single_sets_slot state zk vid x w hx hw

theorem c5_overwrites_slot_witness :
    ∃ cs2, open_auction_variable ⟨0, 1, 0, none, some true, some false, "Playing"⟩
        ⟨CalculationStatus.Output, [⟨2, ⟨true⟩, some [1, 0, 0, 0]⟩]⟩ [2] =
        Except.ok (cs2, [ZkStateChange.outputComplete []]) ∧
      (if get_player_address (⟨2, ⟨true⟩, some [1, 0, 0, 0]⟩ : ZkClosed).metadata.player
            ⟨0, 1, 0, none, some true, some false, "Playing"⟩ =
          (⟨0, 1, 0, none, some true, some false, "Playing"⟩ : ContractState).player_a
        then cs2.hit_a = some ((1 : Nat) != 0) else cs2.hit_b = some ((1 : Nat) != 0)) :=
  c5_overwrites_slot ⟨0, 1, 0, none, some true, some false, "Playing"⟩
    ⟨CalculationStatus.Output, [⟨2, ⟨true⟩, some [1, 0, 0, 0]⟩]⟩ 2
    ⟨2, ⟨true⟩, some [1, 0, 0, 0]⟩ 1 rfl rfl

/-- C7: the disclosure handler fails with `MalformedDisclosure` unless
exactly one variable was opened; with exactly one opened variable whose
bytes are a 4-byte buffer, the bytes are decoded little-endian as a `u32`,
a nonzero value is recorded as a hit (zero as a miss) for the player named
by the variable's metadata, and completion is signalled with an empty
deletion list. -/
theorem c7_disclosure_shape (state : ContractState) (zk : ZkState)
    (vid : SecretVarId) (x : ZkClosed) (bs : List Nat)
    (hx : zk.get_variable vid = some x) (hbs : x.data = some bs)
    (hlen : bs.length = 4) :
    (∀ ids : List SecretVarId, ids.length ≠ 1 →
      open_auction_variable state zk ids = Except.error OpenError.MalformedDisclosure) ∧
    ∃ cs2, open_auction_variable state zk [vid] =
        Except.ok (cs2, [ZkStateChange.outputComplete []]) ∧
      (if get_player_address x.metadata.player state = state.player_a
        then cs2.hit_a = some (u32_from_le_bytes bs != 0)
        else cs2.hit_b = some (u32_from_le_bytes bs != 0)) := by
  constructor
  · intro ids hlen1
    match ids with
    | [] => rfl
    | [v] => simp at hlen1
    | v1 :: v2 :: t => rfl
  · have hw : read_variable_u32_le zk (some vid) = some (u32_from_le_bytes bs) := by
      simp [read_variable_u32_le, hx, hbs, hlen]
    exact open_single_sets_slot state zk vid x (u32_from_le_bytes bs) hx hw

theorem c7_disclosure_shape_witness :
    (∀ ids : List SecretVarId, ids.length ≠ 1 →
      open_auction_variable ⟨0, 1, 0, none, none, none, "Playing"⟩
        ⟨CalculationStatus.Output, [⟨2, ⟨true⟩, some [7, 0, 0, 0]⟩]⟩ ids =
        Except.error OpenError.MalformedDisclosure) ∧
    ∃ cs2, open_auction_variable ⟨0, 1, 0, none, none, none, "Playing"⟩
        ⟨CalculationStatus.Output, [⟨2, ⟨true⟩, some [7, 0, 0, 0]⟩]⟩ [2] =
        Except.ok (cs2, [ZkStateChange.outputComplete []]) ∧
      (if get_player_address (⟨2, ⟨true⟩, some [7, 0, 0, 0]⟩ : ZkClosed).metadata.player
            ⟨0, 1, 0, none, none, none, "Playing"⟩ =
          (⟨0, 1, 0, none, none, none, "Playing"⟩ : ContractState).player_a
        then cs2.hit_a = some (u32_from_le_bytes [7, 0, 0, 0] != 0)
        else cs2.hit_b = some (u32_from_le_bytes [7, 0, 0, 0] != 0)) :=
  c7_disclosure_shape ⟨0, 1, 0, none, none, none, "Playing"⟩
    ⟨CalculationStatus.Output, [⟨2, ⟨true⟩, some [7, 0, 0, 0]⟩]⟩ 2
    ⟨2, ⟨true⟩, some [7, 0, 0, 0]⟩ [7, 0, 0, 0] rfl rfl rfl

/-! ### System-level trace model

The engine (spec §5/§6) is modelled as the minimal environment the
contract's handlers observe: a calculation stage, the list of stored
secret variables, and a fresh-id counter.  Events follow the causal order
the platform guarantees for a single computation: a shot starts a
computation (`shoot_ok`), the engine completes it by materialising the one
output variable carrying the requested metadata with arbitrary
engine-chosen bytes (`complete`, after which `auction_compute_complete`
requests its opening), and the disclosure event runs the handler and
returns the engine to idle with nothing deleted (`opened`, the handler's
`OutputComplete` deletion list is empty).  Placements (`input`) may arrive
at any time from any registered player — `setup_board` imposes no
single-submission or phase guard.  A handler that aborts changes nothing
and contributes no step. -/

inductive EngineCalc where
  | waiting
  | calculating (md : SecretVarMetadata)
  | opening (vid : SecretVarId)
deriving DecidableEq

/-- The `CalculationStatus` the contract observes at each engine stage. -/
def calc_status : EngineCalc → CalculationStatus
  | EngineCalc.waiting => CalculationStatus.Waiting
  | EngineCalc.calculating _ => CalculationStatus.Calculating
  | EngineCalc.opening _ => CalculationStatus.Output

structure EngineState where
  stage : EngineCalc
  vars : List ZkClosed
  next_id : Nat
deriving DecidableEq

/-- Full system state: public duel record plus engine state. -/
structure Sys where
  cs : ContractState
  eng : EngineState
deriving DecidableEq

def zk_of (e : EngineState) : ZkState := ⟨calc_status e.stage, e.vars⟩

/-- Accept a placement: the engine appends the tagged variable, then the
`inputted_variable` handler runs on the grown store. -/
def apply_input (s : Sys) (md : SecretVarMetadata) (data : Option (List Nat)) : Sys :=
  let e2 : EngineState :=
    ⟨s.eng.stage, s.eng.vars ++ [⟨s.eng.next_id, md, data⟩], s.eng.next_id + 1⟩
  ⟨inputted_variable s.cs (zk_of e2), e2⟩

/-- One observable event of the system. -/
inductive Step : Sys → Sys → Prop where
  | input {s : Sys} (sender : Address) (md : SecretVarMetadata)
      (data : Option (List Nat))
      (hmd : setup_board sender s.cs = some md) :
      Step s (apply_input s md data)
  | shoot_ok {s : Sys} (sender position : Nat) (cs2 : ContractState)
      (md : SecretVarMetadata) (f : Bool) (p : Nat)
      (h : shoot sender s.cs (calc_status s.eng.stage) position =
        Except.ok (cs2, [ZkStateChange.startComputation [md] f p])) :
      Step s ⟨cs2, ⟨EngineCalc.calculating md, s.eng.vars, s.eng.next_id⟩⟩
  | complete {s : Sys} (md : SecretVarMetadata) (data : List Nat)
      (hc : s.eng.stage = EngineCalc.calculating md) :
      Step s ⟨s.cs, ⟨EngineCalc.opening s.eng.next_id,
        s.eng.vars ++ [⟨s.eng.next_id, md, some data⟩], s.eng.next_id + 1⟩⟩
  | opened {s : Sys} (vid : SecretVarId) (cs2 : ContractState)
      (chs : List ZkStateChange)
      (hv : s.eng.stage = EngineCalc.opening vid)
      (h : open_auction_variable s.cs (zk_of s.eng) [vid] = Except.ok (cs2, chs)) :
      Step s ⟨cs2, ⟨EngineCalc.waiting, s.eng.vars, s.eng.next_id⟩⟩

/-- The freshly initialized system. -/
def init_sys (pa pb : Address) : Sys :=
  ⟨init_game pa pb, ⟨EngineCalc.waiting, [], 0⟩⟩

/-- Reachability from the initialized record. -/
def Reach (pa pb : Address) (s : Sys) : Prop :=
  Relation.ReflTransGen Step (init_sys pa pb) s

/-- Forward order of the three phases. -/
def phase_rank (g : String) : Nat :=
  if g = "Setup" then 0 else if g = "Playing" then 1 else 2

/-- Reachable-state invariant: the phase label is one of the three, and
once the phase has left "Setup" — or a computation is in flight — at
least two secret variables are stored (the store never shrinks). -/
def SysInv (s : Sys) : Prop :=
  (s.cs.game_state = "Setup" ∨ s.cs.game_state = "Playing" ∨
    s.cs.game_state = "ENDED") ∧
  ((s.cs.game_state = "Playing" ∨ s.cs.game_state = "ENDED") →
    2 ≤ s.eng.vars.length) ∧
  (s.eng.stage ≠ EngineCalc.waiting → 2 ≤ s.eng.vars.length)

lemma apply_input_game_state (s : Sys) (md : SecretVarMetadata)
    (data : Option (List Nat)) :
    (apply_input s md data).cs.game_state =
      (if s.eng.vars.length + 1 = 2 then "Playing" else s.cs.game_state) := by
  by_cases hlen : s.eng.vars.length + 1 = 2 <;>
    simp [apply_input, inputted_variable, zk_of, hlen]

lemma apply_input_len (s : Sys) (md : SecretVarMetadata)
    (data : Option (List Nat)) :
    (apply_input s md data).eng.vars.length = s.eng.vars.length + 1 := by
  simp [apply_input]

lemma apply_input_stage (s : Sys) (md : SecretVarMetadata)
    (data : Option (List Nat)) :
    (apply_input s md data).eng.stage = s.eng.stage := rfl

/-- Inversion of a successful shot: state unchanged and all guards held. -/
lemma shoot_ok_inv (sender : Address) (state : ContractState)
    (cst : CalculationStatus) (position : Nat) (cs2 : ContractState)
    (chs : List ZkStateChange)
    (h : shoot sender state cst position = Except.ok (cs2, chs)) :
    cs2 = state ∧ sender = state.next_turn ∧ state.game_state = "Playing" ∧
      cst = CalculationStatus.Waiting := by
  unfold shoot at h
  split_ifs at h with h1 h2 h3
  rcases hg : get_player_id sender state with _ | pid <;> rw [hg] at h <;> simp_all

/-- A successful disclosure either keeps the phase or sets "ENDED". -/
lemma open_ok_game_state (st : ContractState) (zk : ZkState)
    (ids : List SecretVarId) (cs2 : ContractState) (chs : List ZkStateChange)
    (h : open_auction_variable st zk ids = Except.ok (cs2, chs)) :
    cs2.game_state = st.game_state ∨ cs2.game_state = "ENDED" := by
  obtain ⟨vid, x, w, -, -, -, rfl, -⟩ := open_ok_inv st zk ids cs2 chs h
  have hend := openResult_end st x w
  by_cases hh : (openResult st x w).hit_a.isSome ∧ (openResult st x w).hit_b.isSome
  · exact Or.inr (hend.1 hh).1
  · exact Or.inl (hend.2 hh).1

lemma step_inv (s t : Sys) (hs : SysInv s) (h : Step s t) : SysInv t := by
  obtain ⟨hlab, hlen, hcalc⟩ := hs
  cases h with
  | input sender md data hmd =>
    refine ⟨?_, ?_, ?_⟩
    · rw [apply_input_game_state]
      split
      · exact Or.inr (Or.inl rfl)
      · exact hlab
    · intro hpe
      rw [apply_input_len]
      rw [apply_input_game_state] at hpe
      by_cases hl : s.eng.vars.length + 1 = 2
      · omega
      · rw [if_neg hl] at hpe
        have := hlen hpe
        omega
    · intro hc
      rw [apply_input_len]
      rw [apply_input_stage] at hc
      have := hcalc hc
      omega
  | shoot_ok sender position cs2 md f p h =>
    obtain ⟨rfl, -, hgs, -⟩ := shoot_ok_inv _ _ _ _ _ _ h
    exact ⟨hlab, fun _ => hlen (Or.inl hgs), fun _ => hlen (Or.inl hgs)⟩
  | complete md data hc =>
    refine ⟨hlab, ?_, ?_⟩
    · intro hpe
      have := hlen hpe
      simp only [List.length_append, List.length_cons, List.length_nil]
      omega
    · intro _
      have h2 : 2 ≤ s.eng.vars.length := hcalc (by simp [hc])
      simp only [List.length_append, List.length_cons, List.length_nil]
      omega
  | opened vid cs2 chs hv h =>
    have h2 : 2 ≤ s.eng.vars.length := hcalc (by simp [hv])
    have hgs := open_ok_game_state s.cs (zk_of s.eng) [vid] cs2 chs h
    refine ⟨?_, fun _ => h2, fun hc => absurd rfl hc⟩
    rcases hgs with hgs | hgs
    · rw [hgs]; exact hlab
    · exact Or.inr (Or.inr hgs)

/-- Every reachable state satisfies the invariant. -/
lemma reach_inv (pa pb : Address) (s : Sys) (h : Reach pa pb s) : SysInv s := by
  induction h with
  | refl =>
    refine ⟨Or.inl rfl, ?_, ?_⟩
    · intro h
      have h0 : (init_sys pa pb).cs.game_state = "Setup" := rfl
      rw [h0] at h
      rcases h with h | h <;> exact absurd h (by decide)
    · intro h; exact absurd rfl h
  | tail hr hstep ih => exact step_inv _ _ ih hstep

lemma phase_rank_le_two (g : String) : phase_rank g ≤ 2 := by
  unfold phase_rank; split_ifs <;> omega

/-- Any step moves the phase forward (or keeps it). -/
lemma step_mono (s t : Sys) (hs : SysInv s) (h : Step s t) :
    phase_rank s.cs.game_state ≤ phase_rank t.cs.game_state := by
  obtain ⟨hlab, hlen, hcalc⟩ := hs
  cases h with
  | input sender md data hmd =>
    rw [apply_input_game_state]
    by_cases hl : s.eng.vars.length + 1 = 2
    · rw [if_pos hl]
      rcases hlab with h | h | h
      · rw [h]; decide
      · rw [h]
      · exfalso; have := hlen (Or.inr h); omega
    · rw [if_neg hl]
  | shoot_ok sender position cs2 md f p h =>
    obtain ⟨rfl, -, -, -⟩ := shoot_ok_inv _ _ _ _ _ _ h
    exact Nat.le_refl _
  | complete md data hc => exact Nat.le_refl _
  | opened vid cs2 chs hv h =>
    rcases open_ok_game_state s.cs (zk_of s.eng) [vid] cs2 chs h with hgs | hgs
    · rw [hgs]
    · rw [hgs]
      have h2 : phase_rank "ENDED" = 2 := by decide
      rw [h2]
      exact phase_rank_le_two _

/-- Once "ENDED", every step leaves the phase "ENDED". -/
lemma step_ended (s t : Sys) (hs : SysInv s) (he : s.cs.game_state = "ENDED")
    (h : Step s t) : t.cs.game_state = "ENDED" := by
  obtain ⟨hlab, hlen, hcalc⟩ := hs
  cases h with
  | input sender md data hmd =>
    rw [apply_input_game_state]
    have := hlen (Or.inr he)
    rw [if_neg (by omega)]
    exact he
  | shoot_ok sender position cs2 md f p h =>
    obtain ⟨-, -, hgs, -⟩ := shoot_ok_inv _ _ _ _ _ _ h
    rw [he] at hgs
    exact absurd hgs (by decide)
  | complete md data hc => exact he
  | opened vid cs2 chs hv h =>
    rcases open_ok_game_state s.cs (zk_of s.eng) [vid] cs2 chs h with hgs | hgs
    · rw [hgs, he]
    · exact hgs

/-- In an "ENDED" state a shot always aborts: with `GameNotPlayable` when
the caller is the rightful mover, with `NotYourTurn` otherwise (the turn
guard runs first). -/
lemma shoot_ended (st : ContractState) (cst : CalculationStatus)
    (he : st.game_state = "ENDED") (sender pos : Nat) :
    shoot sender st cst pos =
      Except.error (if sender = st.next_turn then ShootError.GameNotPlayable
        else ShootError.NotYourTurn) := by
  by_cases h1 : sender = st.next_turn
  · have h2 : ¬ st.game_state = "Playing" := by rw [he]; decide
    rw [if_pos h1]
    simp [shoot, h1, h2]
  · rw [if_neg h1]
    simp [shoot, h1]

/-- A concrete finished game: A and B place boards, A shoots and hits B,
B shoots position 0 and misses A; both slots set, phase "ENDED",
winner player A (address 0), `next_turn` back to A. -/
def sys_end : Sys :=
  ⟨⟨0, 1, 0, some 0, some false, some true, "ENDED"⟩,
   ⟨EngineCalc.waiting,
    [⟨0, ⟨false⟩, some [1, 0, 0, 0]⟩, ⟨1, ⟨true⟩, some [1, 0, 0, 0]⟩,
     ⟨2, ⟨true⟩, some [1, 0, 0, 0]⟩, ⟨3, ⟨false⟩, some [0, 0, 0, 0]⟩], 4⟩⟩

lemma reach_sys_end : Reach 0 1 sys_end := by
  refine Relation.ReflTransGen.head
    (Step.input 0 ⟨false⟩ (some [1, 0, 0, 0]) rfl) ?_
  refine Relation.ReflTransGen.head
    (Step.input 1 ⟨true⟩ (some [1, 0, 0, 0]) rfl) ?_
  refine Relation.ReflTransGen.head
    (Step.shoot_ok 0 5 ⟨0, 1, 0, none, none, none, "Playing"⟩ ⟨true⟩ true 5 rfl) ?_
  refine Relation.ReflTransGen.head
    (Step.complete ⟨true⟩ [1, 0, 0, 0] rfl) ?_
  refine Relation.ReflTransGen.head
    (Step.opened 2 ⟨0, 1, 1, none, none, some true, "Playing"⟩
      [ZkStateChange.outputComplete []] rfl rfl) ?_
  refine Relation.ReflTransGen.head
    (Step.shoot_ok 1 0 ⟨0, 1, 1, none, none, some true, "Playing"⟩ ⟨false⟩ false 0 rfl) ?_
  refine Relation.ReflTransGen.head
    (Step.complete ⟨false⟩ [0, 0, 0, 0] rfl) ?_
  refine Relation.ReflTransGen.head
    (Step.opened 3 ⟨0, 1, 0, some 0, some false, some true, "ENDED"⟩
      [ZkStateChange.outputComplete []] rfl rfl) ?_
  exact Relation.ReflTransGen.refl

/-- C9 counterexample: `sys_end` is reachable and "ENDED", yet a shot by
player B (address 1), who is not `next_turn` (address 0), aborts with
`NotYourTurn` — not `GameNotPlayable` as the claim states for every shot
after the end: the turn guard runs before the phase guard. -/
theorem c9_counterexample :
    Reach 0 1 sys_end ∧ sys_end.cs.game_state = "ENDED" ∧
    shoot 1 sys_end.cs (calc_status sys_end.eng.stage) 5 =
      Except.error ShootError.NotYourTurn ∧
    ShootError.NotYourTurn ≠ ShootError.GameNotPlayable :=
  ⟨reach_sys_end, rfl, rfl, by decide⟩

/-- C9 amended: over every handler sequence from an initialized record the
phase rank (Setup < Playing < ENDED) never decreases; and once the phase is
"ENDED" it never changes again and every shot aborts — with
`GameNotPlayable` when the caller is `next_turn`, and with `NotYourTurn`
(the guard checked first) otherwise. -/
theorem c9_phase_monotone_ended_absorbing (pa pb : Address) (s t : Sys)
    (hs : Reach pa pb s) :
    (Step s t → phase_rank s.cs.game_state ≤ phase_rank t.cs.game_state) ∧
    (s.cs.game_state = "ENDED" →
      (Step s t → t.cs.game_state = "ENDED") ∧
      ∀ sender pos, shoot sender s.cs (calc_status s.eng.stage) pos =
        Except.error (if sender = s.cs.next_turn then ShootError.GameNotPlayable
          else ShootError.NotYourTurn)) := by
  have hinv := reach_inv pa pb s hs
  exact ⟨step_mono s t hinv,
    fun he => ⟨step_ended s t hinv he, shoot_ended s.cs (calc_status s.eng.stage) he⟩⟩

theorem c9_phase_monotone_ended_absorbing_witness :
    shoot 0 sys_end.cs (calc_status sys_end.eng.stage) 5 =
      Except.error (if (0 : Nat) = sys_end.cs.next_turn then ShootError.GameNotPlayable
        else ShootError.NotYourTurn) :=
  ((c9_phase_monotone_ended_absorbing 0 1 sys_end sys_end reach_sys_end).2 rfl).2 0 5

/-- A reachable state in which the phase is "Playing" although both stored
concealed placement variables were submitted by player A (metadata
`player = false`): A simply submitted twice, which `setup_board` allows. -/
def sys_two_a : Sys :=
  ⟨⟨0, 1, 0, none, none, none, "Playing"⟩,
   ⟨EngineCalc.waiting,
    [⟨0, ⟨false⟩, some [1, 0, 0, 0]⟩, ⟨1, ⟨false⟩, some [1, 0, 0, 0]⟩], 2⟩⟩

lemma reach_sys_two_a : Reach 0 1 sys_two_a := by
  refine Relation.ReflTransGen.head
    (Step.input 0 ⟨false⟩ (some [1, 0, 0, 0]) rfl) ?_
  refine Relation.ReflTransGen.head
    (Step.input 0 ⟨false⟩ (some [1, 0, 0, 0]) rfl) ?_
  exact Relation.ReflTransGen.refl

/-- C8 counterexample: the handler's check counts variables without
inspecting ownership, so "Playing" can begin although no variable of
player B exists — both stored variables are tagged `player = false`. -/
theorem c8_counterexample :
    Reach 0 1 sys_two_a ∧ sys_two_a.cs.game_state = "Playing" ∧
    sys_two_a.eng.vars.all (fun v => v.metadata.player == false) = true :=
  ⟨reach_sys_two_a, rfl, rfl⟩

/-- C8 amended: for every variable-inputted event the phase is set to
"Playing" exactly when the stored-variable count equals 2 and is left
unchanged otherwise; consequently, when "Playing" begins, two concealed
placement variables exist — but they need not belong to distinct players,
since the count check ignores the ownership metadata. -/
theorem c8_playing_on_two_variables (state : ContractState) (zk : ZkState)
    (pa pb : Address) (s : Sys) (hr : Reach pa pb s) :
    (zk.secret_variables.length = 2 →
      inputted_variable state zk = { state with game_state := "Playing" }) ∧
    (zk.secret_variables.length ≠ 2 → inputted_variable state zk = state) ∧
    (s.cs.game_state = "Playing" → 2 ≤ s.eng.vars.length) := by
  refine ⟨fun h => ?_, fun h => ?_, fun h => ?_⟩
  · simp [inputted_variable, h]
  · simp [inputted_variable, h]
  · exact (reach_inv pa pb s hr).2.1 (Or.inl h)

theorem c8_playing_on_two_variables_witness :
    inputted_variable ⟨0, 1, 0, none, none, none, "Setup"⟩
      ⟨CalculationStatus.Waiting, [⟨0, ⟨false⟩, none⟩, ⟨1, ⟨true⟩, none⟩]⟩ =
      ⟨0, 1, 0, none, none, none, "Playing"⟩ :=
  (c8_playing_on_two_variables ⟨0, 1, 0, none, none, none, "Setup"⟩
    ⟨CalculationStatus.Waiting, [⟨0, ⟨false⟩, none⟩, ⟨1, ⟨true⟩, none⟩]⟩
    0 1 (init_sys 0 1) Relation.ReflTransGen.refl).1 rfl
